import Mathlib

/-!
Verification of the Black-Scholes pricer and implied-volatility calibrator
from `website-files/black_scholes.py`.

The numeric functions of the source are embedded over the real numbers:
`scipy.stats.norm.cdf` becomes the standard normal cumulative distribution
function `normCdf`, `np.log` / `np.exp` / `np.sqrt` become `Real.log` /
`Real.exp` / `Real.sqrt`, and Python's bounded `for` loop with `break` /
`else` becomes structural recursion on the remaining iteration count.
-/

open MeasureTheory Set

namespace BlackScholes

/-- Unnormalized density kernel of the standard normal distribution,
exp (-t^2 / 2). -/
noncomputable def gauss (t : ℝ) : ℝ := Real.exp (-t ^ 2 / 2)

/-- Standard normal cumulative distribution function; this is the real-number
embedding of `scipy.stats.norm.cdf` used as `N` in the source. -/
noncomputable def normCdf (x : ℝ) : ℝ := (∫ t in Iic x, gauss t) / Real.sqrt (2 * Real.pi)

/-- The quantity `d1` computed identically inside `BS_CALL` and `BS_PUT`:
`(np.log(S/K) + (r + sigma**2/2)*T) / (sigma*np.sqrt(T))`. -/
noncomputable def d1 (S K T r sigma : ℝ) : ℝ :=
  (Real.log (S / K) + (r + sigma ^ 2 / 2) * T) / (sigma * Real.sqrt T)

/-- The quantity `d2 = d1 - sigma * np.sqrt(T)` computed inside `BS_CALL` and
`BS_PUT`. -/
noncomputable def d2 (S K T r sigma : ℝ) : ℝ :=
  d1 S K T r sigma - sigma * Real.sqrt T

/-- Embedding of the source function `BS_CALL(S, K, T, r, sigma)`:
`C = S * N(d1) - K * np.exp(-r*T) * N(d2)`. -/
noncomputable def BS_CALL (S K T r sigma : ℝ) : ℝ :=
  S * normCdf (d1 S K T r sigma) - K * Real.exp (-r * T) * normCdf (d2 S K T r sigma)

/-- Embedding of the source function `BS_PUT(S, K, T, r, sigma)`:
`P = K * np.exp(-r*T) * N(-d2) - S * N(-d1)`. -/
noncomputable def BS_PUT (S K T r sigma : ℝ) : ℝ :=
  K * Real.exp (-r * T) * normCdf (-d2 S K T r sigma) - S * normCdf (-d1 S K T r sigma)

/-- The `tolerance = 0.01` constant of `implied_volatility`. -/
def tolerance : ℝ := 0.01

/-- The `max_iterations = 100` constant of `implied_volatility`. -/
def max_iterations : ℕ := 100

/-- Rounding to 4 decimal digits, embedding Python's `round(sigma, 4)`.
Python rounds ties to even while `round` here rounds ties up; no claim
depends on the behavior at an exact tie. -/
noncomputable def round4 (x : ℝ) : ℝ := ((round (x * 10000) : ℤ) : ℝ) / 10000

/-- One leg of the `implied_volatility` search: the Python loop
`for _ in range(n): e = price(sigma); if abs(e - m) < tolerance: return
round(sigma, 4); elif e > m: sigma -= sigma*0.05; else: sigma += sigma*0.05`
with the `for/else` clause yielding `None` when the budget is exhausted. -/
noncomputable def legSearch (price : ℝ → ℝ) (m : ℝ) : ℕ → ℝ → Option ℝ
  | 0, _ => none
  | n + 1, sigma =>
    let e := price sigma
    if |e - m| < tolerance then some (round4 sigma)
    else if e > m then legSearch price m n (sigma - sigma * 0.05)
    else legSearch price m n (sigma + sigma * 0.05)

/-- Embedding of the source function
`implied_volatility(m_call, m_put, S, K, T, r, initial_sigma)`: the call leg
and the put leg run the same bounded search, the first against `BS_CALL` and
`m_call`, the second against `BS_PUT` and `m_put`, both seeded with
`initial_sigma`. -/
noncomputable def implied_volatility (m_call m_put S K T r initial_sigma : ℝ) :
    Option ℝ × Option ℝ :=
  (legSearch (fun sigma => BS_CALL S K T r sigma) m_call max_iterations initial_sigma,
   legSearch (fun sigma => BS_PUT S K T r sigma) m_put max_iterations initial_sigma)

/-- The single volatility update step of the search loop, taken when the
tolerance test fails. -/
noncomputable def nextSigma (price : ℝ → ℝ) (m sigma : ℝ) : ℝ :=
  if price sigma > m then sigma - sigma * 0.05 else sigma + sigma * 0.05

/-- The sequence of volatility guesses visited by one leg of the search:
`sigmaSeq price m sigma0 k` is the guess at the start of iteration `k`.
Up to and including the iteration at which the loop breaks, this agrees with
the guesses the loop actually produces. -/
noncomputable def sigmaSeq (price : ℝ → ℝ) (m sigma0 : ℝ) : ℕ → ℝ
  | 0 => sigma0
  | k + 1 => nextSigma price m (sigmaSeq price m sigma0 k)

/-- Exceptions a Pricer call can involve. `invalidParameter` is modelled
from the spec's `InvalidParameterError` (the source defines no such class);
`zeroDivision` is Python's `ZeroDivisionError`, which the Python-float
quotient `S/K` raises when `K = 0`. -/
inductive PricerError
  | invalidParameter
  | zeroDivision
deriving DecidableEq

/-- Exception-aware rendering of a call to `BS_CALL`. The quotient `S/K` is
Python-float division evaluated before `np.log`, so it raises a
`ZeroDivisionError` when `K = 0`. Every other operation of the body is a
numpy operation that warns and yields NaN/Inf instead of raising, and the
body contains no parameter validation and no raise statement, so for
`K` nonzero the call returns normally with the computed value. -/
noncomputable def BS_CALL_run (S K T r sigma : ℝ) : Except PricerError ℝ :=
  if K = 0 then Except.error PricerError.zeroDivision
  else Except.ok (BS_CALL S K T r sigma)

/-- Exception-aware rendering of a call to `BS_PUT`. As in `BS_CALL_run`,
the Python-float quotient `S/K` raises a `ZeroDivisionError` when `K = 0`;
otherwise the body, which contains no parameter validation and no raise
statement, returns normally with the computed value. -/
noncomputable def BS_PUT_run (S K T r sigma : ℝ) : Except PricerError ℝ :=
  if K = 0 then Except.error PricerError.zeroDivision
  else Except.ok (BS_PUT S K T r sigma)

/-- The call-price formula exactly as the specification words it:
`d1 = (ln(S/K) + (r + sigma^2/2) * T) / (sigma * sqrt T)`,
`d2 = d1 - sigma * sqrt T`, result `S * Phi d1 - K * e^(-rT) * Phi d2`.
Written from the spec's sentence, to be compared with `BS_CALL`. -/
noncomputable def price_call_spec (S K T r sigma : ℝ) : ℝ :=
  S * normCdf ((Real.log (S / K) + (r + sigma ^ 2 / 2) * T) / (sigma * Real.sqrt T))
    - K * Real.exp (-(r * T)) *
      normCdf ((Real.log (S / K) + (r + sigma ^ 2 / 2) * T) / (sigma * Real.sqrt T)
        - sigma * Real.sqrt T)

/-- The put-price formula exactly as the specification words it, with `d1`
and `d2` identical to the call case: result
`K * e^(-rT) * Phi (-d2) - S * Phi (-d1)`. Written from the spec's sentence,
to be compared with `BS_PUT`. -/
noncomputable def price_put_spec (S K T r sigma : ℝ) : ℝ :=
  K * Real.exp (-(r * T)) *
      normCdf (-((Real.log (S / K) + (r + sigma ^ 2 / 2) * T) / (sigma * Real.sqrt T)
        - sigma * Real.sqrt T))
    - S * normCdf (-((Real.log (S / K) + (r + sigma ^ 2 / 2) * T) / (sigma * Real.sqrt T)))

lemma sigmaSeq_shift (price : ℝ → ℝ) (m sigma0 : ℝ) (k : ℕ) :
    sigmaSeq price m sigma0 (k + 1) = sigmaSeq price m (nextSigma price m sigma0) k := by
  induction k with
  | zero => rfl
  | succ k ih =>
    show nextSigma price m (sigmaSeq price m sigma0 (k + 1)) =
      nextSigma price m (sigmaSeq price m (nextSigma price m sigma0) k)
    rw [ih]

lemma nextSigma_pos {price : ℝ → ℝ} {m sigma : ℝ} (h : 0 < sigma) :
    0 < nextSigma price m sigma := by
  unfold nextSigma
  split <;> nlinarith

lemma sigmaSeq_pos {price : ℝ → ℝ} {m sigma0 : ℝ} (h : 0 < sigma0) (k : ℕ) :
    0 < sigmaSeq price m sigma0 k := by
  induction k with
  | zero => exact h
  | succ k ih => exact nextSigma_pos ih

lemma round4_nonneg {x : ℝ} (h : 0 ≤ x) : 0 ≤ round4 x := by
  have h0 : (0 : ℤ) ≤ round (x * 10000) := by
    rw [round_eq]
    exact Int.le_floor.mpr (by push_cast; nlinarith)
  unfold round4
  apply div_nonneg _ (by norm_num)
  exact_mod_cast h0

lemma legSearch_succ (price : ℝ → ℝ) (m sigma : ℝ) (n : ℕ) :
    legSearch price m (n + 1) sigma =
      if |price sigma - m| < tolerance then some (round4 sigma)
      else legSearch price m n (nextSigma price m sigma) := by
  show (if |price sigma - m| < tolerance then some (round4 sigma)
    else if price sigma > m then legSearch price m n (sigma - sigma * 0.05)
    else legSearch price m n (sigma + sigma * 0.05)) = _
  unfold nextSigma
  by_cases h : |price sigma - m| < tolerance
  · rw [if_pos h, if_pos h]
  · rw [if_neg h, if_neg h]
    by_cases h2 : price sigma > m
    · rw [if_pos h2, if_pos h2]
    · rw [if_neg h2, if_neg h2]

lemma legSearch_none_of_far (price : ℝ → ℝ) (m : ℝ) :
    ∀ (n : ℕ) (sigma0 : ℝ),
      (∀ k < n, ¬ |price (sigmaSeq price m sigma0 k) - m| < tolerance) →
      legSearch price m n sigma0 = none := by
  intro n
  induction n with
  | zero => intro s0 _; rfl
  | succ n ih =>
    intro s0 h
    rw [legSearch_succ, if_neg (by simpa using h 0 (Nat.succ_pos n))]
    apply ih
    intro k hk
    have hk1 := h (k + 1) (Nat.succ_lt_succ hk)
    rwa [sigmaSeq_shift] at hk1

lemma legSearch_some_nonneg {price : ℝ → ℝ} {m : ℝ} :
    ∀ {n : ℕ} {sigma v : ℝ}, 0 < sigma → legSearch price m n sigma = some v → 0 ≤ v := by
  intro n
  induction n with
  | zero =>
    intro s v _ h
    simp [legSearch] at h
  | succ n ih =>
    intro s v hs h
    rw [legSearch_succ] at h
    by_cases htol : |price s - m| < tolerance
    · rw [if_pos htol] at h
      have hv := Option.some.inj h
      subst hv
      exact round4_nonneg hs.le
    · rw [if_neg htol] at h
      exact ih (nextSigma_pos hs) h

lemma gauss_pos (t : ℝ) : 0 < gauss t := Real.exp_pos _

lemma gauss_eq : gauss = fun t : ℝ => Real.exp (-(1 / 2 : ℝ) * t ^ 2) := by
  funext t
  unfold gauss
  congr 1
  ring

lemma gauss_integrable : Integrable gauss := by
  rw [gauss_eq]
  exact integrable_exp_neg_mul_sq (by norm_num)

lemma gauss_continuous : Continuous gauss := by
  rw [gauss_eq]
  exact Real.continuous_exp.comp (continuous_const.mul (continuous_pow 2))

lemma integral_gauss : ∫ t, gauss t = Real.sqrt (2 * Real.pi) := by
  rw [gauss_eq, integral_gaussian]
  congr 1
  rw [div_div_eq_mul_div, mul_comm]
  norm_num

lemma sqrt_two_pi_pos : 0 < Real.sqrt (2 * Real.pi) :=
  Real.sqrt_pos.mpr (by positivity)

lemma intIic_gauss_pos (x : ℝ) : 0 < ∫ t in Iic x, gauss t := by
  have hIoc : 0 < ∫ t in (x - 1)..x, gauss t :=
    intervalIntegral.intervalIntegral_pos_of_pos
      gauss_integrable.intervalIntegrable gauss_pos (by linarith)
  have heq : ∫ t in (x - 1)..x, gauss t = ∫ t in Ioc (x - 1) x, gauss t :=
    intervalIntegral.integral_of_le (by linarith)
  have hmono : ∫ t in Ioc (x - 1) x, gauss t ≤ ∫ t in Iic x, gauss t :=
    setIntegral_mono_set gauss_integrable.integrableOn
      (ae_of_all _ fun t => (gauss_pos t).le)
      (HasSubset.Subset.eventuallyLE fun t ht => ht.2)
  linarith [heq ▸ hIoc]

lemma intIic_gauss_le (x : ℝ) : ∫ t in Iic x, gauss t ≤ Real.sqrt (2 * Real.pi) := by
  rw [← integral_gauss]
  exact setIntegral_le_integral gauss_integrable (ae_of_all _ fun t => (gauss_pos t).le)

lemma normCdf_pos (x : ℝ) : 0 < normCdf x :=
  div_pos (intIic_gauss_pos x) sqrt_two_pi_pos

lemma normCdf_le_one (x : ℝ) : normCdf x ≤ 1 := by
  rw [normCdf, div_le_one sqrt_two_pi_pos]
  exact intIic_gauss_le x

lemma intIic_gauss_neg (x : ℝ) : ∫ t in Iic (-x), gauss t = ∫ t in Ioi x, gauss t := by
  have h1 : ∫ t in Iic (-x), gauss (-t) = ∫ t in Ioi (-(-x)), gauss t :=
    integral_comp_neg_Iic (-x) gauss
  rw [neg_neg] at h1
  rw [← h1]
  apply setIntegral_congr_fun measurableSet_Iic
  intro t _
  simp [gauss, neg_sq]

lemma normCdf_add_neg (x : ℝ) : normCdf x + normCdf (-x) = 1 := by
  have hsplit : (∫ t in Iic x, gauss t) + ∫ t in Ioi x, gauss t = ∫ t, gauss t :=
    intervalIntegral.integral_Iic_add_Ioi
      gauss_integrable.integrableOn gauss_integrable.integrableOn
  rw [normCdf, normCdf, intIic_gauss_neg, div_add_div_same, hsplit, integral_gauss,
    div_self sqrt_two_pi_pos.ne']

lemma call_sub_put (S K T r sigma : ℝ) :
    BS_CALL S K T r sigma - BS_PUT S K T r sigma = S - K * Real.exp (-r * T) := by
  unfold BS_CALL BS_PUT
  have h1 := normCdf_add_neg (d1 S K T r sigma)
  have h2 := normCdf_add_neg (d2 S K T r sigma)
  linear_combination S * h1 - K * Real.exp (-r * T) * h2

lemma BS_CALL_lt_S {S K T r sigma : ℝ} (hS : 0 < S) (hK : 0 < K) :
    BS_CALL S K T r sigma < S := by
  unfold BS_CALL
  have h1 : normCdf (d1 S K T r sigma) ≤ 1 := normCdf_le_one _
  have h2 : 0 < normCdf (d2 S K T r sigma) := normCdf_pos _
  have hq : 0 < K * Real.exp (-r * T) := by positivity
  nlinarith [mul_le_mul_of_nonneg_left h1 hS.le, mul_pos hq h2]

lemma BS_PUT_lt_Ke {S K T r sigma : ℝ} (hS : 0 < S) (hK : 0 < K) :
    BS_PUT S K T r sigma < K * Real.exp (-r * T) := by
  unfold BS_PUT
  have h1 : normCdf (-d2 S K T r sigma) ≤ 1 := normCdf_le_one _
  have h2 : 0 < normCdf (-d1 S K T r sigma) := normCdf_pos _
  have hq : 0 < K * Real.exp (-r * T) := by positivity
  nlinarith [mul_le_mul_of_nonneg_left h1 hq.le, mul_pos hS h2]

lemma hasDerivAt_intIic_gauss (x : ℝ) :
    HasDerivAt (fun u => ∫ t in Iic u, gauss t) (gauss x) x := by
  have hfun : (fun u => ∫ t in Iic u, gauss t) =
      fun u => (∫ t in Iic (0 : ℝ), gauss t) + ∫ t in (0 : ℝ)..u, gauss t := by
    funext u
    have h := intervalIntegral.integral_Iic_sub_Iic
      (gauss_integrable.integrableOn (s := Iic (0 : ℝ)))
      (gauss_integrable.integrableOn (s := Iic u))
    linarith
  rw [hfun]
  simpa using (hasDerivAt_const x (∫ t in Iic (0 : ℝ), gauss t)).add
    (gauss_continuous.integral_hasStrictDerivAt 0 x).hasDerivAt

lemma hasDerivAt_normCdf (x : ℝ) :
    HasDerivAt normCdf (gauss x / Real.sqrt (2 * Real.pi)) x := by
  have h : HasDerivAt (fun u => (∫ t in Iic u, gauss t) / Real.sqrt (2 * Real.pi))
      (gauss x / Real.sqrt (2 * Real.pi)) x := (hasDerivAt_intIic_gauss x).div_const _
  exact h.congr_deriv rfl

lemma d1_sq_sub_d2_sq {S K T r sigma : ℝ} (hT : 0 < T) (hs : sigma ≠ 0) :
    d1 S K T r sigma ^ 2 - d2 S K T r sigma ^ 2 =
      2 * (Real.log (S / K) + r * T) := by
  have hc2 : Real.sqrt T ^ 2 = T := Real.sq_sqrt hT.le
  have hbne : sigma * Real.sqrt T ≠ 0 :=
    mul_ne_zero hs (by positivity)
  have hmul : d1 S K T r sigma * (sigma * Real.sqrt T) =
      Real.log (S / K) + (r + sigma ^ 2 / 2) * T := div_mul_cancel₀ _ hbne
  unfold d2
  linear_combination 2 * hmul - sigma ^ 2 * hc2

lemma gauss_identity {S K T r sigma : ℝ} (hS : 0 < S) (hK : 0 < K)
    (hT : 0 < T) (hs : sigma ≠ 0) :
    S * gauss (d1 S K T r sigma) = K * Real.exp (-r * T) * gauss (d2 S K T r sigma) := by
  have hSK : 0 < S / K := div_pos hS hK
  have hsq := d1_sq_sub_d2_sq (S := S) (K := K) (r := r) hT hs
  unfold gauss
  have hexp : Real.exp (-d1 S K T r sigma ^ 2 / 2) =
      Real.exp (-d2 S K T r sigma ^ 2 / 2) *
        Real.exp (-(Real.log (S / K) + r * T)) := by
    rw [← Real.exp_add]
    congr 1
    linarith
  have hlog : Real.exp (-(Real.log (S / K) + r * T)) = K / S * Real.exp (-r * T) := by
    rw [neg_add, Real.exp_add, Real.exp_neg, Real.exp_log hSK, inv_div, neg_mul]
  rw [hexp, hlog]
  field_simp
  ring

lemma hasDerivAt_d_sigma {S K T : ℝ} (r : ℝ) {sigma : ℝ} (hT : 0 < T) (hs : sigma ≠ 0) :
    ∃ D : ℝ, HasDerivAt (fun s => d1 S K T r s) D sigma ∧
      HasDerivAt (fun s => d2 S K T r s) (D - Real.sqrt T) sigma := by
  have hden : sigma * Real.sqrt T ≠ 0 := mul_ne_zero hs (by positivity)
  have hnum : HasDerivAt (fun s : ℝ => Real.log (S / K) + (r + s ^ 2 / 2) * T)
      (0 + (0 + 2 * sigma ^ 1 / 2) * T) sigma :=
    (hasDerivAt_const sigma _).add
      (((hasDerivAt_const sigma r).add ((hasDerivAt_pow 2 sigma).div_const 2)).mul_const T)
  have hg : HasDerivAt (fun s : ℝ => s * Real.sqrt T) (1 * Real.sqrt T) sigma :=
    (hasDerivAt_id sigma).mul_const _
  have hd1 : HasDerivAt (fun s => d1 S K T r s)
      (((0 + (0 + 2 * sigma ^ 1 / 2) * T) * (sigma * Real.sqrt T) -
          (Real.log (S / K) + (r + sigma ^ 2 / 2) * T) * (1 * Real.sqrt T)) /
        (sigma * Real.sqrt T) ^ 2) sigma := hnum.div hg hden
  refine ⟨_, hd1, ?_⟩
  have hd2 := hd1.sub hg
  have : HasDerivAt (fun s => d2 S K T r s) _ sigma := hd2
  simpa [one_mul] using this

lemma hasDerivAt_BS_CALL_sigma {S K T r sigma : ℝ} (hS : 0 < S) (hK : 0 < K)
    (hT : 0 < T) (hs : 0 < sigma) :
    ∃ D : ℝ, HasDerivAt (fun s => BS_CALL S K T r s) D sigma ∧ 0 < D := by
  obtain ⟨D, hd1, hd2⟩ := hasDerivAt_d_sigma (S := S) (K := K) r hT hs.ne'
  have hc1 : HasDerivAt (fun s => normCdf (d1 S K T r s))
      (gauss (d1 S K T r sigma) / Real.sqrt (2 * Real.pi) * D) sigma :=
    (hasDerivAt_normCdf _).comp sigma hd1
  have hc2 : HasDerivAt (fun s => normCdf (d2 S K T r s))
      (gauss (d2 S K T r sigma) / Real.sqrt (2 * Real.pi) * (D - Real.sqrt T)) sigma :=
    (hasDerivAt_normCdf _).comp sigma hd2
  have hC : HasDerivAt (fun s => BS_CALL S K T r s)
      (S * (gauss (d1 S K T r sigma) / Real.sqrt (2 * Real.pi) * D) -
        K * Real.exp (-r * T) *
          (gauss (d2 S K T r sigma) / Real.sqrt (2 * Real.pi) * (D - Real.sqrt T))) sigma :=
    (hc1.const_mul S).sub (hc2.const_mul (K * Real.exp (-r * T)))
  refine ⟨_, hC, ?_⟩
  have hid := gauss_identity (r := r) hS hK hT hs.ne'
  have hid2 : S * (gauss (d1 S K T r sigma) / Real.sqrt (2 * Real.pi)) =
      K * Real.exp (-r * T) * (gauss (d2 S K T r sigma) / Real.sqrt (2 * Real.pi)) := by
    rw [← mul_div_assoc, ← mul_div_assoc, hid]
  have hval : S * (gauss (d1 S K T r sigma) / Real.sqrt (2 * Real.pi) * D) -
      K * Real.exp (-r * T) *
        (gauss (d2 S K T r sigma) / Real.sqrt (2 * Real.pi) * (D - Real.sqrt T)) =
      K * Real.exp (-r * T) * gauss (d2 S K T r sigma) / Real.sqrt (2 * Real.pi) *
        Real.sqrt T := by
    linear_combination D * hid2
  rw [hval]
  have hq : 0 < K * Real.exp (-r * T) * gauss (d2 S K T r sigma) := by
    have := gauss_pos (d2 S K T r sigma)
    positivity
  have hst : 0 < Real.sqrt T := Real.sqrt_pos.mpr hT
  positivity

lemma BS_CALL_strictMonoOn_sigma {S K T r : ℝ} (hS : 0 < S) (hK : 0 < K) (hT : 0 < T) :
    StrictMonoOn (fun sigma => BS_CALL S K T r sigma) (Ioi 0) := by
  apply strictMonoOn_of_deriv_pos (convex_Ioi 0)
  · intro s hs
    obtain ⟨D, hD, _⟩ := hasDerivAt_BS_CALL_sigma (r := r) hS hK hT (mem_Ioi.mp hs)
    exact hD.differentiableAt.continuousAt.continuousWithinAt
  · intro s hs
    rw [interior_Ioi] at hs
    obtain ⟨D, hD, hpos⟩ := hasDerivAt_BS_CALL_sigma (r := r) hS hK hT (mem_Ioi.mp hs)
    rw [hD.deriv]
    exact hpos

end BlackScholes

namespace BlackScholes

/-- C1 counterexample: at `S = -1`, `K = 1`, `T = 1`, `r = 0`, `sigma = 1`
(so `S <= 0`), both `BS_CALL` and `BS_PUT` return normally; neither raises
an `InvalidParameterError` as the claim asserts. -/
theorem claim_C1_counterexample :
    (¬ ∃ e, BS_CALL_run (-1) 1 1 0 1 = Except.error e) ∧
    (¬ ∃ e, BS_PUT_run (-1) 1 1 0 1 = Except.error e) := by
  constructor <;> rintro ⟨e, h⟩ <;> norm_num [BS_CALL_run, BS_PUT_run] at h <;>
    exact Except.noConfusion h

/-- C1 amended: for every input with `S <= 0`, `K <= 0`, `T <= 0` or
`sigma <= 0`, `BS_CALL` and `BS_PUT` never raise an `InvalidParameterError`:
they perform no parameter validation. When `K` is nonzero they return
normally with the formula's value (in float semantics a NaN or Inf
propagates silently); when `K = 0` the Python-float quotient `S/K` raises a
`ZeroDivisionError`, which is not an `InvalidParameterError`. -/
theorem claim_C1_amended (S K T r sigma : ℝ)
    (h : S ≤ 0 ∨ K ≤ 0 ∨ T ≤ 0 ∨ sigma ≤ 0) :
    (BS_CALL_run S K T r sigma ≠ Except.error PricerError.invalidParameter ∧
     BS_PUT_run S K T r sigma ≠ Except.error PricerError.invalidParameter) ∧
    (K ≠ 0 →
      BS_CALL_run S K T r sigma = Except.ok (BS_CALL S K T r sigma) ∧
      BS_PUT_run S K T r sigma = Except.ok (BS_PUT S K T r sigma)) ∧
    (K = 0 →
      BS_CALL_run S K T r sigma = Except.error PricerError.zeroDivision ∧
      BS_PUT_run S K T r sigma = Except.error PricerError.zeroDivision) := by
  by_cases hK : K = 0
  · refine ⟨⟨?_, ?_⟩, fun hK' => absurd hK hK', fun _ => ⟨?_, ?_⟩⟩ <;>
      simp [BS_CALL_run, BS_PUT_run, hK]
  · refine ⟨⟨?_, ?_⟩, fun _ => ⟨?_, ?_⟩, fun hK' => absurd hK' hK⟩ <;>
      simp [BS_CALL_run, BS_PUT_run, hK]

/-- Witness for the amended C1 at the concrete input `S = -1`, `K = 1`,
`T = 1`, `r = 0`, `sigma = 1`. -/
theorem claim_C1_amended_witness :
    ((-1 : ℝ) ≤ 0 ∨ (1 : ℝ) ≤ 0 ∨ (1 : ℝ) ≤ 0 ∨ (1 : ℝ) ≤ 0) ∧
    ((BS_CALL_run (-1) 1 1 0 1 ≠ Except.error PricerError.invalidParameter ∧
      BS_PUT_run (-1) 1 1 0 1 ≠ Except.error PricerError.invalidParameter) ∧
     ((1 : ℝ) ≠ 0 →
       BS_CALL_run (-1) 1 1 0 1 = Except.ok (BS_CALL (-1) 1 1 0 1) ∧
       BS_PUT_run (-1) 1 1 0 1 = Except.ok (BS_PUT (-1) 1 1 0 1)) ∧
     ((1 : ℝ) = 0 →
       BS_CALL_run (-1) 1 1 0 1 = Except.error PricerError.zeroDivision ∧
       BS_PUT_run (-1) 1 1 0 1 = Except.error PricerError.zeroDivision)) :=
  ⟨Or.inl (by norm_num), claim_C1_amended (-1) 1 1 0 1 (Or.inl (by norm_num))⟩

/-- C2: each leg of `implied_volatility` runs the search seeded at
`initial_sigma` with a budget of 100 iterations; each iteration computes the
leg's Black-Scholes price at the current `sigma`, returns `sigma` rounded to
4 decimal digits when that estimate is within 0.01 of the market price, and
otherwise rescales `sigma` to `sigma * 0.95` when the estimate exceeds the
market price and to `sigma * 1.05` when it does not. -/
theorem claim_C2_step_rule (m_call m_put S K T r initial_sigma : ℝ) :
    implied_volatility m_call m_put S K T r initial_sigma =
      (legSearch (fun sigma => BS_CALL S K T r sigma) m_call 100 initial_sigma,
       legSearch (fun sigma => BS_PUT S K T r sigma) m_put 100 initial_sigma) ∧
    ∀ (price : ℝ → ℝ) (m : ℝ) (n : ℕ) (sigma : ℝ),
      legSearch price m (n + 1) sigma =
        if |price sigma - m| < 0.01 then some (round4 sigma)
        else legSearch price m n (if price sigma > m then sigma * 0.95 else sigma * 1.05) := by
  refine ⟨rfl, fun price m n sigma => ?_⟩
  rw [legSearch_succ]
  have h95 : sigma - sigma * 0.05 = sigma * 0.95 := by ring
  have h105 : sigma + sigma * 0.05 = sigma * 1.05 := by ring
  simp only [nextSigma, tolerance, h95, h105]

/-- C3: each leg of `implied_volatility` has a budget of
`max_iterations = 100` iterations, and when no guess in that budget brings
the leg's Black-Scholes price within the tolerance of the market price, the
leg's result is the sentinel `none`; the function always terminates and
raises nothing. -/
theorem claim_C3_budget_and_sentinel (m_call m_put S K T r initial_sigma : ℝ) :
    ((∀ k < max_iterations,
        ¬ |BS_CALL S K T r (sigmaSeq (fun s => BS_CALL S K T r s) m_call initial_sigma k)
            - m_call| < tolerance) →
      (implied_volatility m_call m_put S K T r initial_sigma).1 = none) ∧
    ((∀ k < max_iterations,
        ¬ |BS_PUT S K T r (sigmaSeq (fun s => BS_PUT S K T r s) m_put initial_sigma k)
            - m_put| < tolerance) →
      (implied_volatility m_call m_put S K T r initial_sigma).2 = none) :=
  ⟨fun h => legSearch_none_of_far _ _ _ _ h, fun h => legSearch_none_of_far _ _ _ _ h⟩

/-- C4: for positive `S`, `K`, `T` and `sigma`, `BS_CALL` computes exactly
the specification's call formula
`S * Phi d1 - K * e^(-rT) * Phi d2` with
`d1 = (ln(S/K) + (r + sigma^2/2) * T) / (sigma * sqrt T)` and
`d2 = d1 - sigma * sqrt T`. -/
theorem claim_C4_call_formula (S K T r sigma : ℝ)
    (hS : 0 < S) (hK : 0 < K) (hT : 0 < T) (hsig : 0 < sigma) :
    BS_CALL S K T r sigma = price_call_spec S K T r sigma := by
  simp only [BS_CALL, price_call_spec, d2, d1, neg_mul]

/-- Witness for C4 at the concrete input `S = K = T = sigma = 1`, `r = 0`. -/
theorem claim_C4_witness :
    (0 : ℝ) < 1 ∧ BS_CALL 1 1 1 0 1 = price_call_spec 1 1 1 0 1 :=
  ⟨by norm_num,
   claim_C4_call_formula 1 1 1 0 1 (by norm_num) (by norm_num) (by norm_num) (by norm_num)⟩

/-- C5: for positive `S`, `K`, `T` and `sigma`, `BS_PUT` computes exactly
the specification's put formula `K * e^(-rT) * Phi (-d2) - S * Phi (-d1)`,
with `d1` and `d2` as in the call case. -/
theorem claim_C5_put_formula (S K T r sigma : ℝ)
    (hS : 0 < S) (hK : 0 < K) (hT : 0 < T) (hsig : 0 < sigma) :
    BS_PUT S K T r sigma = price_put_spec S K T r sigma := by
  simp only [BS_PUT, price_put_spec, d2, d1, neg_mul]

/-- Witness for C5 at the concrete input `S = K = T = sigma = 1`, `r = 0`. -/
theorem claim_C5_witness :
    (0 : ℝ) < 1 ∧ BS_PUT 1 1 1 0 1 = price_put_spec 1 1 1 0 1 :=
  ⟨by norm_num,
   claim_C5_put_formula 1 1 1 0 1 (by norm_num) (by norm_num) (by norm_num) (by norm_num)⟩

/-- C6: put-call parity. For positive `S`, `K`, `T`, `sigma` and any `r`,
`BS_CALL - BS_PUT = S - K * e^(-rT)` (an exact identity of the real-number
embedding, hence within any floating-point tolerance). -/
theorem claim_C6_put_call_parity (S K T r sigma : ℝ)
    (hS : 0 < S) (hK : 0 < K) (hT : 0 < T) (hsig : 0 < sigma) :
    BS_CALL S K T r sigma - BS_PUT S K T r sigma = S - K * Real.exp (-r * T) :=
  call_sub_put S K T r sigma

/-- Witness for C6 at the concrete input `S = K = T = sigma = 1`, `r = 0`. -/
theorem claim_C6_witness :
    (0 : ℝ) < 1 ∧ BS_CALL 1 1 1 0 1 - BS_PUT 1 1 1 0 1 = 1 - 1 * Real.exp (-0 * 1) :=
  ⟨by norm_num,
   claim_C6_put_call_parity 1 1 1 0 1 (by norm_num) (by norm_num) (by norm_num) (by norm_num)⟩

/-- C7: monotonicity in volatility. For fixed positive `S`, `K`, `T` and any
`r`, both `BS_CALL` and `BS_PUT` are non-decreasing in `sigma` on
`0 < sigma1 <= sigma2`. -/
theorem claim_C7_monotone_in_sigma (S K T r sigma1 sigma2 : ℝ)
    (hS : 0 < S) (hK : 0 < K) (hT : 0 < T) (h1 : 0 < sigma1) (h12 : sigma1 ≤ sigma2) :
    BS_CALL S K T r sigma1 ≤ BS_CALL S K T r sigma2 ∧
    BS_PUT S K T r sigma1 ≤ BS_PUT S K T r sigma2 := by
  have h2 : 0 < sigma2 := lt_of_lt_of_le h1 h12
  have hcall : BS_CALL S K T r sigma1 ≤ BS_CALL S K T r sigma2 := by
    rcases eq_or_lt_of_le h12 with rfl | hlt
    · exact le_refl _
    · exact (BS_CALL_strictMonoOn_sigma (r := r) hS hK hT
        (mem_Ioi.mpr h1) (mem_Ioi.mpr h2) hlt).le
  refine ⟨hcall, ?_⟩
  have e1 := call_sub_put S K T r sigma1
  have e2 := call_sub_put S K T r sigma2
  linarith

/-- Witness for C7 at the concrete input `S = K = T = 1`, `r = 0`,
`sigma1 = 1`, `sigma2 = 2`. -/
theorem claim_C7_witness :
    BS_CALL 1 1 1 0 1 ≤ BS_CALL 1 1 1 0 2 ∧ BS_PUT 1 1 1 0 1 ≤ BS_PUT 1 1 1 0 2 :=
  claim_C7_monotone_in_sigma 1 1 1 0 1 2 (by norm_num) (by norm_num) (by norm_num)
    (by norm_num) (by norm_num)

/-- Witness for C3 at the concrete input `m_call = m_put = 2`,
`S = K = T = 1`, `r = 0`, `initial_sigma = 1`: no guess can bring either
Black-Scholes price within tolerance of a market price of 2, so both legs
return `none`. -/
theorem claim_C3_witness :
    (implied_volatility 2 2 1 1 1 0 1).1 = none ∧
    (implied_volatility 2 2 1 1 1 0 1).2 = none := by
  constructor
  · apply (claim_C3_budget_and_sentinel 2 2 1 1 1 0 1).1
    intro k _ habs
    have hlt : BS_CALL 1 1 1 0 (sigmaSeq (fun s => BS_CALL 1 1 1 0 s) 2 1 k) < 1 :=
      BS_CALL_lt_S (by norm_num) (by norm_num)
    rw [abs_lt, tolerance] at habs
    linarith [habs.1]
  · apply (claim_C3_budget_and_sentinel 2 2 1 1 1 0 1).2
    intro k _ habs
    have hlt : BS_PUT 1 1 1 0 (sigmaSeq (fun s => BS_PUT 1 1 1 0 s) 2 1 k)
        < 1 * Real.exp (-0 * 1) :=
      BS_PUT_lt_Ke (by norm_num) (by norm_num)
    rw [abs_lt, tolerance] at habs
    have hexp : (1 : ℝ) * Real.exp (-0 * 1) = 1 := by
      norm_num
    linarith [habs.1]

/-- C8: when the market call price exceeds `S` by at least the tolerance, no
positive volatility can make the call estimate reach it (`BS_CALL < S`
always), so the call leg of `implied_volatility` exhausts its budget and
returns the sentinel `none` without raising. -/
theorem claim_C8_unreachable_price (m_call m_put S K T r initial_sigma : ℝ)
    (hS : 0 < S) (hK : 0 < K) (hT : 0 < T) (hsig : 0 < initial_sigma)
    (hm : S + tolerance ≤ m_call) :
    (implied_volatility m_call m_put S K T r initial_sigma).1 = none := by
  show legSearch (fun sigma => BS_CALL S K T r sigma) m_call max_iterations initial_sigma = none
  apply legSearch_none_of_far
  intro k _ habs
  have hlt : BS_CALL S K T r (sigmaSeq (fun s => BS_CALL S K T r s) m_call initial_sigma k) < S :=
    BS_CALL_lt_S hS hK
  rw [abs_lt] at habs
  linarith [habs.1]

/-- Witness for C8 at the concrete input `m_call = 2`, `m_put = 0`,
`S = K = T = 1`, `r = 0`, `initial_sigma = 1`. -/
theorem claim_C8_witness : (implied_volatility 2 0 1 1 1 0 1).1 = none :=
  claim_C8_unreachable_price 2 0 1 1 1 0 1 (by norm_num) (by norm_num) (by norm_num)
    (by norm_num) (by norm_num [tolerance])

/-- C9: the call leg of `implied_volatility` does not depend on the market
put price, and the put leg does not depend on the market call price. -/
theorem claim_C9_leg_independence (m_call m_call' m_put m_put' S K T r initial_sigma : ℝ) :
    (implied_volatility m_call m_put S K T r initial_sigma).1 =
      (implied_volatility m_call m_put' S K T r initial_sigma).1 ∧
    (implied_volatility m_call m_put S K T r initial_sigma).2 =
      (implied_volatility m_call' m_put S K T r initial_sigma).2 :=
  ⟨rfl, rfl⟩

/-- C10: when `initial_sigma > 0`, every intermediate volatility guess of
both search loops is strictly positive, and any volatility returned in a
`some` result is non-negative. -/
theorem claim_C10_positive_guesses (m_call m_put S K T r initial_sigma : ℝ)
    (h : 0 < initial_sigma) :
    (∀ k, 0 < sigmaSeq (fun s => BS_CALL S K T r s) m_call initial_sigma k) ∧
    (∀ k, 0 < sigmaSeq (fun s => BS_PUT S K T r s) m_put initial_sigma k) ∧
    (∀ v, (implied_volatility m_call m_put S K T r initial_sigma).1 = some v → 0 ≤ v) ∧
    (∀ v, (implied_volatility m_call m_put S K T r initial_sigma).2 = some v → 0 ≤ v) :=
  ⟨fun k => sigmaSeq_pos h k, fun k => sigmaSeq_pos h k,
   fun _ hv => legSearch_some_nonneg h hv, fun _ hv => legSearch_some_nonneg h hv⟩

/-- Witness for C10 at the concrete input `m_call = m_put = 0`, `S = K = T = 1`,
`r = 0`, `initial_sigma = 1`. -/
theorem claim_C10_witness :
    (0 : ℝ) < 1 ∧
    ((∀ k, 0 < sigmaSeq (fun s => BS_CALL 1 1 1 0 s) 0 1 k) ∧
     (∀ k, 0 < sigmaSeq (fun s => BS_PUT 1 1 1 0 s) 0 1 k) ∧
     (∀ v, (implied_volatility 0 0 1 1 1 0 1).1 = some v → 0 ≤ v) ∧
     (∀ v, (implied_volatility 0 0 1 1 1 0 1).2 = some v → 0 ≤ v)) :=
  ⟨by norm_num, claim_C10_positive_guesses 0 0 1 1 1 0 1 (by norm_num)⟩

end BlackScholes
